import Mathlib

/-!
Verification of the availability computation core of the calendaro repository
(`src/lib/availability.ts`).

Time is modelled as an integer count of milliseconds on a single reference
timeline (the spec states that all inputs are already normalized to one time
base and that recurrence/timezone handling is out of scope).  The date-fns
helpers used by the source (`startOfDay`, `endOfDay`, `addMinutes`, `addDays`,
`isWithinInterval`, `parseISO`, `format`) are modelled on that timeline with a
fixed day length of 86400000 ms; `parseISO` becomes the identity (interval
fields hold the already-parsed instant), and `format(d, "yyyy-MM-dd")` is
modelled as the civil day ordinal of `d` (two instants receive the same label
iff they fall on the same day, which is exactly the information content of the
rendered string).

JavaScript `Math.floor` on a quotient of integers is integer floor division
(`Int.fdiv`).  `Array.from({length: n}, f)` clamps a negative or NaN length to
zero and throws a `RangeError` when the length is infinite, which happens in
`generateSlotStarts` exactly when the duration is zero and the range is
non-degenerate; fallible computations therefore return `Option`, with `none`
standing for a thrown exception.
-/

namespace Calendaro

/-- Milliseconds per minute (the `* 60 * 1000` factors in the source). -/
def minuteMs : Int := 60000

/-- Milliseconds per day (the `1000 * 60 * 60 * 24` factor in the source). -/
def dayMs : Int := 86400000

/-- date-fns `startOfDay`: the first instant of the day containing `t`.
`Int` division by the positive constant `dayMs` is floor division. -/
def startOfDay (t : Int) : Int := t / dayMs * dayMs

/-- date-fns `endOfDay`: the last millisecond (23:59:59.999) of the day
containing `t`. -/
def endOfDay (t : Int) : Int := startOfDay t + dayMs - 1

/-- date-fns `addMinutes`. -/
def addMinutes (t m : Int) : Int := t + m * minuteMs

/-- date-fns `addDays`. -/
def addDays (t d : Int) : Int := t + d * dayMs

/-- date-fns `isWithinInterval(t, {start := lo, end := hi})`: inclusive on both
ends. -/
def isWithinInterval (t lo hi : Int) : Bool := decide (lo ≤ t) && decide (t ≤ hi)

/-- JavaScript `Math.ceil(a / b)` for a positive integer divisor `b`. -/
def jsCeilDiv (a b : Int) : Int := -(-a / b)

/-- `AvailabilitySlot` from availability.ts; `startDateTime`/`endDateTime` hold
the instants denoted by the ISO strings (`parseISO` is the identity in this
model). -/
structure AvailabilitySlot where
  key : String
  startDateTime : Int
  endDateTime : Int
deriving DecidableEq

/-- `BookingSlot` from availability.ts. -/
structure BookingSlot where
  id : String
  startTime : Int
  endTime : Int
deriving DecidableEq

/-- `BusyTime` from availability.ts. -/
structure BusyTime where
  start : Int
  «end» : Int
deriving DecidableEq

/-- An element of the array returned by `computeAvailableSlots`
(`{ start, end }`). -/
structure FreeSlot where
  start : Int
  «end» : Int
deriving DecidableEq

/-- The availability-filter predicate that both `computeAvailableDates` and
`computeAvailableSlots` apply verbatim: a slot is kept for a day when its start
falls within the day, or its end falls within the day, or it spans the whole
day. -/
def intersectsDay (dayStart dayEnd : Int) (slot : AvailabilitySlot) : Bool :=
  isWithinInterval slot.startDateTime dayStart dayEnd ||
  isWithinInterval slot.endDateTime dayStart dayEnd ||
  (decide (slot.startDateTime ≤ dayStart) && decide (slot.endDateTime ≥ dayEnd))

/-- The list of slot starts produced by `Array.from({length: slotCount}, ...)`
in `generateSlotStarts`, for the cases in which the length computation yields a
finite number (negative and NaN counts are clamped to zero by `ToLength`). -/
def slotStartsList (rangeStart rangeEnd durationMinutes : Int) : List Int :=
  (List.range ((rangeEnd - rangeStart).fdiv (durationMinutes * minuteMs)).toNat).map
    fun (i : Nat) => addMinutes rangeStart ((i : Int) * durationMinutes)

/-- `generateSlotStarts` from availability.ts.  When `durationMinutes = 0` and
`rangeStart < rangeEnd` the JavaScript slot count is `Infinity` and
`Array.from` throws a `RangeError`, modelled as `none`; in every other case the
floored count (clamped at zero) produces a finite array. -/
def generateSlotStarts (rangeStart rangeEnd durationMinutes : Int) :
    Option (List Int) :=
  if durationMinutes = 0 ∧ rangeStart < rangeEnd then none
  else some (slotStartsList rangeStart rangeEnd durationMinutes)

/-- The `hasBookingConflict` check inside both aggregators: some booking
`[bookingStart, bookingEnd)` satisfies
`currentStart < bookingEnd && currentEnd > bookingStart`. -/
def hasBookingConflict (bookings : List BookingSlot) (currentStart currentEnd : Int) :
    Bool :=
  bookings.any fun booking =>
    decide (currentStart < booking.endTime) && decide (currentEnd > booking.startTime)

/-- The `hasBusyConflict` check inside both aggregators. -/
def hasBusyConflict (busyTimes : List BusyTime) (currentStart currentEnd : Int) :
    Bool :=
  busyTimes.any fun busy =>
    decide (currentStart < busy.«end») && decide (currentEnd > busy.start)

/-- The combined conflict predicate (spec §4.2 `hasConflict`): the source keeps
a candidate iff `!hasBookingConflict && !hasBusyConflict`, i.e. iff this
predicate is false. -/
def hasConflict (bookings : List BookingSlot) (busyTimes : List BusyTime)
    (currentStart currentEnd : Int) : Bool :=
  hasBookingConflict bookings currentStart currentEnd ||
  hasBusyConflict busyTimes currentStart currentEnd

/-- JavaScript `Array.prototype.flatMap` with a callback that may throw:
elements are processed left to right and the first exception aborts the whole
call. -/
def flatMapOptM (f : α → Option (List β)) : List α → Option (List β)
  | [] => some []
  | x :: xs =>
    match f x with
    | none => none
    | some ys =>
      match flatMapOptM f xs with
      | none => none
      | some rest => some (ys ++ rest)

/-- JavaScript `Array.prototype.some` with a callback that may throw: it
short-circuits at the first `true`, so an exception in a later element is never
raised. -/
def anyOptM (f : α → Option Bool) : List α → Option Bool
  | [] => some false
  | x :: xs =>
    match f x with
    | none => none
    | some true => some true
    | some false => anyOptM f xs

/-- JavaScript `Array.prototype.filter` with a predicate that may throw:
elements are tested left to right and the first exception aborts the whole
call. -/
def filterOptM (f : α → Option Bool) : List α → Option (List α)
  | [] => some []
  | x :: xs =>
    match f x with
    | none => none
    | some b =>
      match filterOptM f xs with
      | none => none
      | some ys => some (if b then x :: ys else ys)

/-- The body of the `flatMap` arrow in `computeAvailableSlots`: clamp the
availability window to the day, generate candidate starts, drop candidates in
the past or in conflict, and pair each survivor with its end. -/
def windowFreeSlots (bookings : List BookingSlot) (busyTimes : List BusyTime)
    (dayStart dayEnd slotDurationMinutes now : Int) (availSlot : AvailabilitySlot) :
    Option (List FreeSlot) :=
  let availStart := availSlot.startDateTime
  let availEnd := availSlot.endDateTime
  let slotStart := if availStart < dayStart then dayStart else availStart
  let slotEnd := if availEnd > dayEnd then dayEnd else availEnd
  (generateSlotStarts slotStart slotEnd slotDurationMinutes).map fun slotStarts =>
    ((slotStarts.filter fun currentStart => decide (currentStart ≥ now)).filter
        fun currentStart =>
          let currentEnd := addMinutes currentStart slotDurationMinutes
          !hasBookingConflict bookings currentStart currentEnd &&
          !hasBusyConflict busyTimes currentStart currentEnd).map
      fun currentStart =>
        FreeSlot.mk currentStart (addMinutes currentStart slotDurationMinutes)

/-- `computeAvailableSlots` from availability.ts, with the single wall-clock
sample `const now = new Date()` made an explicit parameter. -/
def computeAvailableSlots (availability : List AvailabilitySlot)
    (bookings : List BookingSlot) (date : Int) (slotDurationMinutes : Int)
    (busyTimes : List BusyTime) (now : Int) : Option (List FreeSlot) :=
  let dayStart := startOfDay date
  let dayEnd := endOfDay date
  let availabilityForDate := availability.filter (intersectsDay dayStart dayEnd)
  flatMapOptM
    (windowFreeSlots bookings busyTimes dayStart dayEnd slotDurationMinutes now)
    availabilityForDate

/-- The body of the `some` arrow in `checkDayHasAvailableSlot`: clamp the
window to the day, generate candidates, and test whether any candidate is free
of conflicts (note: no past-slot filter here, unlike `windowFreeSlots`). -/
def windowHasFreeSlot (bookings : List BookingSlot) (busyTimes : List BusyTime)
    (dayStart dayEnd slotDurationMinutes : Int) (availSlot : AvailabilitySlot) :
    Option Bool :=
  let availStart := availSlot.startDateTime
  let availEnd := availSlot.endDateTime
  let slotStart := if availStart < dayStart then dayStart else availStart
  let slotEnd := if availEnd > dayEnd then dayEnd else availEnd
  (generateSlotStarts slotStart slotEnd slotDurationMinutes).map fun potentialSlots =>
    potentialSlots.any fun currentStart =>
      let currentEnd := addMinutes currentStart slotDurationMinutes
      !hasBookingConflict bookings currentStart currentEnd &&
      !hasBusyConflict busyTimes currentStart currentEnd

/-- `checkDayHasAvailableSlot` from availability.ts. -/
def checkDayHasAvailableSlot (availabilityForDate : List AvailabilitySlot)
    (bookings : List BookingSlot) (dayStart dayEnd slotDurationMinutes : Int)
    (busyTimes : List BusyTime) : Option Bool :=
  anyOptM
    (windowHasFreeSlot bookings busyTimes dayStart dayEnd slotDurationMinutes)
    availabilityForDate

/-- `format(t, "yyyy-MM-dd")`, modelled as the civil day ordinal of `t` (days
since the epoch): two instants receive the same label iff they lie on the same
day, so the ordinal carries exactly the information of the rendered string. -/
def formatYMD (t : Int) : Int := t / dayMs

/-- The body of the second `filter` arrow in `computeAvailableDates`: bail out
when no availability window touches the day, otherwise run the day-existence
check. -/
def dateHasSlotCheck (availability : List AvailabilitySlot)
    (bookings : List BookingSlot) (slotDurationMinutes : Int)
    (busyTimes : List BusyTime) (currentDate : Int) : Option Bool :=
  let dayStart := startOfDay currentDate
  let dayEnd := endOfDay currentDate
  let availabilityForDate := availability.filter (intersectsDay dayStart dayEnd)
  if availabilityForDate.length = 0 then some false
  else
    checkDayHasAvailableSlot availabilityForDate bookings dayStart dayEnd
      slotDurationMinutes busyTimes

/-- `computeAvailableDates` from availability.ts, with the single wall-clock
sample `startOfDay(new Date())` made an explicit `now` parameter.  Returns the
labels (`formatYMD`) of the surviving days. -/
def computeAvailableDates (availability : List AvailabilitySlot)
    (bookings : List BookingSlot) (startDate endDate : Int)
    (slotDurationMinutes : Int) (busyTimes : List BusyTime) (now : Int) :
    Option (List Int) :=
  let today := startOfDay now
  let dayCount := jsCeilDiv (endDate - startDate) dayMs + 1
  let days := (List.range dayCount.toNat).map fun (i : Nat) => addDays (startOfDay startDate) (i : Int)
  let inRange := days.filter fun currentDate =>
    decide (currentDate ≥ today) && decide (currentDate ≤ endDate)
  (filterOptM (dateHasSlotCheck availability bookings slotDurationMinutes busyTimes)
      inRange).map
    (List.map formatYMD)

/-- `computeAvailableSlots` with the ambient clock made explicit: `clock n` is
the value of the n-th `new Date()` call; the source samples the clock exactly
once (line 124). -/
def computeAvailableSlotsClocked (clock : Nat → Int)
    (availability : List AvailabilitySlot) (bookings : List BookingSlot)
    (date : Int) (slotDurationMinutes : Int) (busyTimes : List BusyTime) :
    Option (List FreeSlot) :=
  computeAvailableSlots availability bookings date slotDurationMinutes busyTimes
    (clock 0)

/-- `computeAvailableDates` with the ambient clock made explicit; the source
samples the clock exactly once (line 64). -/
def computeAvailableDatesClocked (clock : Nat → Int)
    (availability : List AvailabilitySlot) (bookings : List BookingSlot)
    (startDate endDate : Int) (slotDurationMinutes : Int)
    (busyTimes : List BusyTime) : Option (List Int) :=
  computeAvailableDates availability bookings startDate endDate
    slotDurationMinutes busyTimes (clock 0)

/-! ### Exception-free restatements

For a nonzero duration `generateSlotStarts` never throws, and the three
`Option`-valued functions collapse to pure list computations.  The following
definitions give those pure forms; the `_eq` lemmas below prove that the
faithful `Option` versions refine them. -/

/-- Pure form of `windowFreeSlots` (valid whenever the duration is nonzero). -/
def windowFreeSlotsList (bookings : List BookingSlot) (busyTimes : List BusyTime)
    (dayStart dayEnd slotDurationMinutes now : Int) (availSlot : AvailabilitySlot) :
    List FreeSlot :=
  let slotStart := if availSlot.startDateTime < dayStart then dayStart else availSlot.startDateTime
  let slotEnd := if availSlot.endDateTime > dayEnd then dayEnd else availSlot.endDateTime
  (((slotStartsList slotStart slotEnd slotDurationMinutes).filter
        fun currentStart => decide (currentStart ≥ now)).filter
      fun currentStart =>
        let currentEnd := addMinutes currentStart slotDurationMinutes
        !hasBookingConflict bookings currentStart currentEnd &&
        !hasBusyConflict busyTimes currentStart currentEnd).map
    fun currentStart =>
      FreeSlot.mk currentStart (addMinutes currentStart slotDurationMinutes)

/-- Pure form of `computeAvailableSlots` (valid for nonzero durations). -/
def computeAvailableSlotsList (availability : List AvailabilitySlot)
    (bookings : List BookingSlot) (date : Int) (slotDurationMinutes : Int)
    (busyTimes : List BusyTime) (now : Int) : List FreeSlot :=
  let dayStart := startOfDay date
  let dayEnd := endOfDay date
  (availability.filter (intersectsDay dayStart dayEnd)).flatMap
    (windowFreeSlotsList bookings busyTimes dayStart dayEnd slotDurationMinutes now)

/-- Pure form of `windowHasFreeSlot` (valid for nonzero durations). -/
def windowHasFreeSlotB (bookings : List BookingSlot) (busyTimes : List BusyTime)
    (dayStart dayEnd slotDurationMinutes : Int) (availSlot : AvailabilitySlot) :
    Bool :=
  let slotStart := if availSlot.startDateTime < dayStart then dayStart else availSlot.startDateTime
  let slotEnd := if availSlot.endDateTime > dayEnd then dayEnd else availSlot.endDateTime
  (slotStartsList slotStart slotEnd slotDurationMinutes).any fun currentStart =>
    let currentEnd := addMinutes currentStart slotDurationMinutes
    !hasBookingConflict bookings currentStart currentEnd &&
    !hasBusyConflict busyTimes currentStart currentEnd

/-- Pure form of `dateHasSlotCheck` (valid for nonzero durations). -/
def dateKeep (availability : List AvailabilitySlot) (bookings : List BookingSlot)
    (slotDurationMinutes : Int) (busyTimes : List BusyTime) (currentDate : Int) :
    Bool :=
  let dayStart := startOfDay currentDate
  let dayEnd := endOfDay currentDate
  let availabilityForDate := availability.filter (intersectsDay dayStart dayEnd)
  if availabilityForDate.length = 0 then false
  else
    availabilityForDate.any
      (windowHasFreeSlotB bookings busyTimes dayStart dayEnd slotDurationMinutes)

/-- Pure form of `computeAvailableDates` (valid for nonzero durations). -/
def computeAvailableDatesList (availability : List AvailabilitySlot)
    (bookings : List BookingSlot) (startDate endDate : Int)
    (slotDurationMinutes : Int) (busyTimes : List BusyTime) (now : Int) :
    List Int :=
  let today := startOfDay now
  let dayCount := jsCeilDiv (endDate - startDate) dayMs + 1
  let days := (List.range dayCount.toNat).map fun (i : Nat) => addDays (startOfDay startDate) (i : Int)
  let inRange := days.filter fun currentDate =>
    decide (currentDate ≥ today) && decide (currentDate ≤ endDate)
  (inRange.filter (dateKeep availability bookings slotDurationMinutes busyTimes)).map
    formatYMD

/-! ### Combinator lemmas -/

theorem flatMapOptM_pure {f : α → Option (List β)} {g : α → List β} :
    ∀ {xs : List α}, (∀ x ∈ xs, f x = some (g x)) →
      flatMapOptM f xs = some (xs.flatMap g)
  | [], _ => rfl
  | x :: xs, h => by
    have hx := h x (List.mem_cons_self x xs)
    have hrest := flatMapOptM_pure
      (fun y hy => h y (List.mem_cons_of_mem x hy) : ∀ y ∈ xs, f y = some (g y))
    simp [flatMapOptM, hx, hrest]

theorem flatMapOptM_mem {f : α → Option (List β)} :
    ∀ {xs : List α} {l : List β}, flatMapOptM f xs = some l → ∀ b ∈ l,
      ∃ x ∈ xs, ∃ ys, f x = some ys ∧ b ∈ ys := by
  intro xs
  induction xs with
  | nil => intro l h b hb; simp [flatMapOptM] at h; subst h; simp at hb
  | cons x xs ih =>
    intro l h b hb
    simp only [flatMapOptM] at h
    cases hfx : f x with
    | none => rw [hfx] at h; simp at h
    | some ys =>
      rw [hfx] at h
      cases hrest : flatMapOptM f xs with
      | none => rw [hrest] at h; simp at h
      | some rest =>
        rw [hrest] at h
        simp only [Option.some.injEq] at h
        subst h
        rcases List.mem_append.mp hb with hys | hr
        · exact ⟨x, List.mem_cons_self x xs, ys, hfx, hys⟩
        · rcases ih hrest b hr with ⟨y, hy, zs, hfz, hbz⟩
          exact ⟨y, List.mem_cons_of_mem x hy, zs, hfz, hbz⟩

theorem flatMapOptM_append (f : α → Option (List β)) :
    ∀ (xs ys : List α),
      flatMapOptM f (xs ++ ys) =
        (flatMapOptM f xs).bind fun l1 =>
          (flatMapOptM f ys).map fun l2 => l1 ++ l2
  | [], ys => by
    cases h : flatMapOptM f ys <;> simp [flatMapOptM, h]
  | x :: xs, ys => by
    have ih := flatMapOptM_append f xs ys
    cases hfx : f x with
    | none => simp [flatMapOptM, hfx]
    | some zs =>
      cases hxs : flatMapOptM f xs with
      | none =>
        rw [hxs] at ih
        simp [flatMapOptM, hfx, ih, hxs]
      | some l1 =>
        rw [hxs] at ih
        cases hys : flatMapOptM f ys with
        | none =>
          rw [hys] at ih
          simp at ih
          simp [flatMapOptM, hfx, ih, hxs, hys]
        | some l2 =>
          rw [hys] at ih
          simp at ih
          simp [flatMapOptM, hfx, hxs, hys, ih]

theorem anyOptM_pure {f : α → Option Bool} {g : α → Bool} :
    ∀ {xs : List α}, (∀ x ∈ xs, f x = some (g x)) →
      anyOptM f xs = some (xs.any g)
  | [], _ => rfl
  | x :: xs, h => by
    have hx := h x (List.mem_cons_self x xs)
    have hrest := anyOptM_pure
      (fun y hy => h y (List.mem_cons_of_mem x hy) : ∀ y ∈ xs, f y = some (g y))
    cases hgx : g x <;> simp [anyOptM, hx, hgx, hrest]

theorem filterOptM_pure {f : α → Option Bool} {g : α → Bool} :
    ∀ {xs : List α}, (∀ x ∈ xs, f x = some (g x)) →
      filterOptM f xs = some (xs.filter g)
  | [], _ => rfl
  | x :: xs, h => by
    have hx := h x (List.mem_cons_self x xs)
    have hrest := filterOptM_pure
      (fun y hy => h y (List.mem_cons_of_mem x hy) : ∀ y ∈ xs, f y = some (g y))
    cases hgx : g x <;> simp [filterOptM, hx, hgx, hrest, List.filter_cons]

/-! ### Arithmetic facts about the day grid and the slot lattice -/

theorem startOfDay_dvd (t : Int) : dayMs ∣ startOfDay t :=
  dvd_mul_left dayMs (t / dayMs)

theorem startOfDay_le (t : Int) : startOfDay t ≤ t := by
  simp only [startOfDay, dayMs]
  omega

theorem lt_startOfDay_add (t : Int) : t < startOfDay t + dayMs := by
  simp only [startOfDay, dayMs]
  omega

theorem startOfDay_of_dvd {t : Int} (h : dayMs ∣ t) : startOfDay t = t := by
  rcases h with ⟨k, rfl⟩
  simp only [startOfDay]
  rw [Int.mul_ediv_cancel_left k (by simp [dayMs]), Int.mul_comm]

theorem formatYMD_inj {a b : Int} (ha : dayMs ∣ a) (hb : dayMs ∣ b)
    (h : formatYMD a = formatYMD b) : a = b := by
  rcases ha with ⟨j, rfl⟩
  rcases hb with ⟨k, rfl⟩
  simp only [formatYMD] at h
  rw [Int.mul_ediv_cancel_left j (by simp [dayMs]),
    Int.mul_ediv_cancel_left k (by simp [dayMs])] at h
  rw [h]

theorem formatYMD_mono {a b : Int} (h : a ≤ b) : formatYMD a ≤ formatYMD b :=
  Int.ediv_le_ediv (by simp [dayMs]) h

theorem generateSlotStarts_eq_some {a b d : Int} {l : List Int}
    (h : generateSlotStarts a b d = some l) : l = slotStartsList a b d := by
  simp only [generateSlotStarts] at h
  split at h
  · exact absurd h (by simp)
  · exact (Option.some.injEq _ _ ▸ h).symm

theorem generateSlotStarts_of_ne_zero {d : Int} (hd : d ≠ 0) (a b : Int) :
    generateSlotStarts a b d = some (slotStartsList a b d) := by
  simp [generateSlotStarts, hd]

theorem mem_slotStartsList {a b d t : Int} :
    t ∈ slotStartsList a b d ↔
      ∃ i : Nat, i < ((b - a).fdiv (d * minuteMs)).toNat ∧
        t = addMinutes a ((i : Int) * d) := by
  simp only [slotStartsList, List.mem_map, List.mem_range]
  exact ⟨fun ⟨i, hi, he⟩ => ⟨i, hi, he.symm⟩, fun ⟨i, hi, he⟩ => ⟨i, hi, he.symm⟩⟩

theorem slotStartsList_lower {a b d t : Int} (hd : 0 < d)
    (ht : t ∈ slotStartsList a b d) : a ≤ t := by
  rcases mem_slotStartsList.mp ht with ⟨i, _, rfl⟩
  have : (0 : Int) ≤ (i : Int) * d :=
    mul_nonneg (Int.ofNat_nonneg i) (le_of_lt hd)
  have hm : (0 : Int) ≤ (i : Int) * d * minuteMs :=
    mul_nonneg this (by simp [minuteMs])
  simp only [addMinutes]
  omega

theorem slotStartsList_upper {a b d t : Int} (hd : 0 < d)
    (ht : t ∈ slotStartsList a b d) : addMinutes t d ≤ b := by
  rcases mem_slotStartsList.mp ht with ⟨i, hi, rfl⟩
  have hdm : (0 : Int) < d * minuteMs := mul_pos hd (by simp [minuteMs])
  set c : Int := (b - a).fdiv (d * minuteMs) with hc
  have hfd : c = (b - a) / (d * minuteMs) :=
    Int.fdiv_eq_ediv (b - a) (le_of_lt hdm)
  have hcb : c * (d * minuteMs) ≤ b - a := by
    rw [hfd]; exact Int.ediv_mul_le (b - a) (ne_of_gt hdm)
  have hic : (i : Int) + 1 ≤ c := by
    have h0 : (0 : Int) < c := by
      by_contra hneg
      push_neg at hneg
      have : c.toNat = 0 := Int.toNat_of_nonpos hneg
      omega
    have : (i : Int) < c := by
      have := hi
      omega
    omega
  have hmul : ((i : Int) + 1) * (d * minuteMs) ≤ c * (d * minuteMs) :=
    mul_le_mul_of_nonneg_right hic (le_of_lt hdm)
  simp only [addMinutes]
  nlinarith [hmul, hcb]

/-! ### Refinement: the Option layer collapses for nonzero durations -/

theorem windowFreeSlots_of_ne_zero {d : Int} (hd : d ≠ 0)
    (bookings : List BookingSlot) (busyTimes : List BusyTime)
    (dayStart dayEnd now : Int) (w : AvailabilitySlot) :
    windowFreeSlots bookings busyTimes dayStart dayEnd d now w =
      some (windowFreeSlotsList bookings busyTimes dayStart dayEnd d now w) := by
  simp [windowFreeSlots, windowFreeSlotsList, generateSlotStarts_of_ne_zero hd]

theorem computeAvailableSlots_of_ne_zero {d : Int} (hd : d ≠ 0)
    (availability : List AvailabilitySlot) (bookings : List BookingSlot)
    (date : Int) (busyTimes : List BusyTime) (now : Int) :
    computeAvailableSlots availability bookings date d busyTimes now =
      some (computeAvailableSlotsList availability bookings date d busyTimes now) := by
  simp only [computeAvailableSlots, computeAvailableSlotsList]
  exact flatMapOptM_pure fun w _ =>
    windowFreeSlots_of_ne_zero hd bookings busyTimes _ _ now w

theorem windowHasFreeSlot_of_ne_zero {d : Int} (hd : d ≠ 0)
    (bookings : List BookingSlot) (busyTimes : List BusyTime)
    (dayStart dayEnd : Int) (w : AvailabilitySlot) :
    windowHasFreeSlot bookings busyTimes dayStart dayEnd d w =
      some (windowHasFreeSlotB bookings busyTimes dayStart dayEnd d w) := by
  simp [windowHasFreeSlot, windowHasFreeSlotB, generateSlotStarts_of_ne_zero hd]

theorem checkDayHasAvailableSlot_of_ne_zero {d : Int} (hd : d ≠ 0)
    (availabilityForDate : List AvailabilitySlot) (bookings : List BookingSlot)
    (dayStart dayEnd : Int) (busyTimes : List BusyTime) :
    checkDayHasAvailableSlot availabilityForDate bookings dayStart dayEnd d busyTimes =
      some (availabilityForDate.any
        (windowHasFreeSlotB bookings busyTimes dayStart dayEnd d)) := by
  simp only [checkDayHasAvailableSlot]
  exact anyOptM_pure fun w _ =>
    windowHasFreeSlot_of_ne_zero hd bookings busyTimes _ _ w

theorem dateHasSlotCheck_of_ne_zero {d : Int} (hd : d ≠ 0)
    (availability : List AvailabilitySlot) (bookings : List BookingSlot)
    (busyTimes : List BusyTime) (currentDate : Int) :
    dateHasSlotCheck availability bookings d busyTimes currentDate =
      some (dateKeep availability bookings d busyTimes currentDate) := by
  simp only [dateHasSlotCheck, dateKeep]
  split
  · rfl
  · exact checkDayHasAvailableSlot_of_ne_zero hd _ bookings _ _ busyTimes

theorem computeAvailableDates_of_ne_zero {d : Int} (hd : d ≠ 0)
    (availability : List AvailabilitySlot) (bookings : List BookingSlot)
    (startDate endDate : Int) (busyTimes : List BusyTime) (now : Int) :
    computeAvailableDates availability bookings startDate endDate d busyTimes now =
      some (computeAvailableDatesList availability bookings startDate endDate d
        busyTimes now) := by
  simp only [computeAvailableDates, computeAvailableDatesList]
  rw [filterOptM_pure fun cd _ =>
    dateHasSlotCheck_of_ne_zero hd availability bookings busyTimes cd]
  rfl

/-- Anatomy of a slot returned by `computeAvailableSlots` (no assumption on the
duration): it originates from an availability window that intersects the day,
its start is a generated candidate for that clamped window that is not in the
past, it is conflict-free, and its end sits one duration after its start. -/
theorem computeAvailableSlots_mem {availability : List AvailabilitySlot}
    {bookings : List BookingSlot} {busyTimes : List BusyTime}
    {date d now : Int} {l : List FreeSlot}
    (h : computeAvailableSlots availability bookings date d busyTimes now = some l)
    {s : FreeSlot} (hs : s ∈ l) :
    ∃ w ∈ availability,
      intersectsDay (startOfDay date) (endOfDay date) w = true ∧
      s.start ∈ slotStartsList
        (if w.startDateTime < startOfDay date then startOfDay date else w.startDateTime)
        (if w.endDateTime > endOfDay date then endOfDay date else w.endDateTime) d ∧
      now ≤ s.start ∧
      hasBookingConflict bookings s.start (addMinutes s.start d) = false ∧
      hasBusyConflict busyTimes s.start (addMinutes s.start d) = false ∧
      s.«end» = addMinutes s.start d := by
  rcases flatMapOptM_mem h s hs with ⟨w, hw, ys, hys, hsys⟩
  have hw' := List.mem_filter.mp hw
  simp only [windowFreeSlots] at hys
  cases hgen : generateSlotStarts
      (if w.startDateTime < startOfDay date then startOfDay date else w.startDateTime)
      (if w.endDateTime > endOfDay date then endOfDay date else w.endDateTime) d with
  | none => rw [hgen] at hys; simp at hys
  | some starts =>
    rw [hgen] at hys
    simp only [Option.map_some', Option.some.injEq] at hys
    subst hys
    rcases List.mem_map.mp hsys with ⟨t, ht, hts⟩
    have ht2 := List.mem_filter.mp ht
    have ht3 := List.mem_filter.mp ht2.1
    have hstarts := generateSlotStarts_eq_some hgen
    subst hstarts
    refine ⟨w, hw'.1, hw'.2, ?_, ?_, ?_, ?_, ?_⟩
    · rw [← hts]; exact ht3.1
    · rw [← hts]; simpa using ht3.2
    · rw [← hts]
      have := ht2.2
      simp only [Bool.and_eq_true, Bool.not_eq_true'] at this
      exact this.1
    · rw [← hts]
      have := ht2.2
      simp only [Bool.and_eq_true, Bool.not_eq_true'] at this
      exact this.2
    · rw [← hts]

theorem filterOptM_mem {f : α → Option Bool} :
    ∀ {xs ys : List α}, filterOptM f xs = some ys → ∀ a ∈ ys,
      a ∈ xs ∧ f a = some true := by
  intro xs
  induction xs with
  | nil => intro ys h a ha; simp [filterOptM] at h; subst h; simp at ha
  | cons x xs ih =>
    intro ys h a ha
    simp only [filterOptM] at h
    cases hfx : f x with
    | none => rw [hfx] at h; simp at h
    | some b =>
      rw [hfx] at h
      cases hrest : filterOptM f xs with
      | none => rw [hrest] at h; simp at h
      | some zs =>
        rw [hrest] at h
        simp only [Option.some.injEq] at h
        subst h
        cases b with
        | true =>
          rcases List.mem_cons.mp (by simpa using ha) with rfl | hz
          · exact ⟨List.mem_cons_self a xs, hfx⟩
          · rcases ih hrest a hz with ⟨hmem, hfa⟩
            exact ⟨List.mem_cons_of_mem x hmem, hfa⟩
        | false =>
          rcases ih hrest a (by simpa using ha) with ⟨hmem, hfa⟩
          exact ⟨List.mem_cons_of_mem x hmem, hfa⟩

/-! ### Claim theorems -/

/-- C3: for a positive `durationMinutes`, `generateSlotStarts` succeeds and
returns exactly `floor((rangeEnd − rangeStart) / duration)` instants (clamped
at zero), the i-th being `rangeStart + i·duration`, in strictly ascending
order; every generated slot of length `duration` ends at or before `rangeEnd`;
and for `rangeStart > rangeEnd` the result is the empty sequence rather than a
failure. -/
theorem generateSlotStarts_lattice (rs re d : Int) (hd : 0 < d) :
    ∃ l, generateSlotStarts rs re d = some l ∧
      l.length = ((re - rs).fdiv (d * minuteMs)).toNat ∧
      (∀ (i : Nat) (h : i < l.length), l.get ⟨i, h⟩ = addMinutes rs ((i : Int) * d)) ∧
      l.Pairwise (· < ·) ∧
      (∀ t ∈ l, addMinutes t d ≤ re) ∧
      (re < rs → l = []) := by
  refine ⟨slotStartsList rs re d, generateSlotStarts_of_ne_zero (ne_of_gt hd) rs re,
    ?_, ?_, ?_, ?_, ?_⟩
  · simp [slotStartsList]
  · intro i h
    simp [slotStartsList, List.get_eq_getElem]
  · refine List.pairwise_map.mpr ?_
    refine (List.pairwise_lt_range _).imp ?_
    intro i j hij
    have hmul : (i : Int) * d < (j : Int) * d := by
      have : (i : Int) < (j : Int) := by exact_mod_cast hij
      exact mul_lt_mul_of_pos_right this hd
    simp only [addMinutes]
    have : (i : Int) * d * minuteMs < (j : Int) * d * minuteMs :=
      mul_lt_mul_of_pos_right hmul (by simp [minuteMs])
    omega
  · intro t ht
    exact slotStartsList_upper hd ht
  · intro hlt
    have hdm : (0 : Int) < d * minuteMs := mul_pos hd (by simp [minuteMs])
    have hneg : (re - rs).fdiv (d * minuteMs) < 0 := by
      rw [Int.fdiv_eq_ediv _ (le_of_lt hdm)]
      exact Int.ediv_neg' (by omega) hdm
    simp [slotStartsList, Int.toNat_of_nonpos (le_of_lt hneg)]

/-- Witness for `generateSlotStarts_lattice` at rangeStart 0, rangeEnd
90 minutes, duration 30. -/
theorem generateSlotStarts_lattice_witness :
    (0 : Int) < 30 ∧
    ∃ l, generateSlotStarts 0 5400000 30 = some l ∧
      l.length = ((5400000 - 0 : Int).fdiv (30 * minuteMs)).toNat ∧
      (∀ (i : Nat) (h : i < l.length), l.get ⟨i, h⟩ = addMinutes 0 ((i : Int) * 30)) ∧
      l.Pairwise (· < ·) ∧
      (∀ t ∈ l, addMinutes t 30 ≤ 5400000) ∧
      ((5400000 : Int) < 0 → l = []) :=
  ⟨by decide, generateSlotStarts_lattice 0 5400000 30 (by decide)⟩

/-- C4 (counterexample): the claim says a zero or negative duration always
yields an empty candidate sequence, but with duration −30 and a backwards range
(rangeStart 00:30, rangeEnd 00:00) the generator returns one candidate. -/
theorem generateSlotStarts_nonpositive_duration_cex :
    generateSlotStarts 1800000 0 (-30) = some [1800000] := by decide

/-- C4 (amended): a nonpositive duration never produces an infinite sequence;
when `rangeStart ≤ rangeEnd` a negative duration yields the empty sequence, and
a zero duration yields the empty sequence when `rangeStart = rangeEnd` but a
`RangeError` (`none`, from the infinite JavaScript slot count) when
`rangeStart < rangeEnd`.  (With `rangeStart > rangeEnd` and a negative
duration the sequence is non-empty, per the counterexample.) -/
theorem generateSlotStarts_nonpositive_duration (rs re d : Int) (hd : d ≤ 0)
    (hr : rs ≤ re) :
    generateSlotStarts rs re d = if d = 0 ∧ rs < re then none else some [] := by
  rcases eq_or_lt_of_le hd with rfl | hneg
  · by_cases hlt : rs < re
    · simp [generateSlotStarts, hlt]
    · have : rs = re := le_antisymm hr (by omega)
      subst this
      simp [generateSlotStarts, slotStartsList]
  · have hne : d ≠ 0 := ne_of_lt hneg
    have hdm : d * minuteMs ≤ 0 :=
      mul_nonpos_of_nonpos_of_nonneg (le_of_lt hneg) (by simp [minuteMs])
    have hcount : (re - rs).fdiv (d * minuteMs) ≤ 0 :=
      Int.fdiv_nonpos (by omega) hdm
    have : ¬(d = 0 ∧ rs < re) := fun h => hne h.1
    simp [generateSlotStarts, this, slotStartsList, Int.toNat_of_nonpos hcount]

/-- Witness for `generateSlotStarts_nonpositive_duration` at duration −30 over
the forward range 00:00 to 01:00. -/
theorem generateSlotStarts_nonpositive_duration_witness :
    (-30 : Int) ≤ 0 ∧ (0 : Int) ≤ 3600000 ∧
    generateSlotStarts 0 3600000 (-30) =
      if (-30 : Int) = 0 ∧ (0 : Int) < 3600000 then none else some [] :=
  ⟨by decide, by decide,
    generateSlotStarts_nonpositive_duration 0 3600000 (-30) (by decide) (by decide)⟩

/-- C2: a candidate slot `[a, b)` is in conflict iff some booking or busy
interval `[c, d)` satisfies `a < d` and `b > c` (so boundary-exact adjacency is
not a conflict and such slots pass the filter), and no slot returned by
`computeAvailableSlots` strictly overlaps any input booking or busy
interval. -/
theorem conflict_half_open_rule (availability : List AvailabilitySlot)
    (bookings : List BookingSlot) (busyTimes : List BusyTime)
    (date d now : Int) (l : List FreeSlot)
    (h : computeAvailableSlots availability bookings date d busyTimes now = some l) :
    (∀ a b : Int, hasConflict bookings busyTimes a b = true ↔
      ((∃ bk ∈ bookings, a < bk.endTime ∧ bk.startTime < b) ∨
       (∃ bz ∈ busyTimes, a < bz.«end» ∧ bz.start < b))) ∧
    ∀ s ∈ l, ¬((∃ bk ∈ bookings, s.start < bk.endTime ∧ bk.startTime < s.«end») ∨
               (∃ bz ∈ busyTimes, s.start < bz.«end» ∧ bz.start < s.«end»)) := by
  constructor
  · intro a b
    simp [hasConflict, hasBookingConflict, hasBusyConflict, List.any_eq_true,
      gt_iff_lt, and_assoc]
  · intro s hs
    rcases computeAvailableSlots_mem h hs with ⟨w, _, _, _, _, hbk, hbz, hend⟩
    rw [hend]
    have hbk' : ∀ bk ∈ bookings,
        ¬(s.start < bk.endTime ∧ bk.startTime < addMinutes s.start d) := by
      intro bk hbkmem hcontra
      have : hasBookingConflict bookings s.start (addMinutes s.start d) = true := by
        simp only [hasBookingConflict, List.any_eq_true]
        exact ⟨bk, hbkmem, by simp [hcontra.1, hcontra.2]⟩
      rw [hbk] at this
      exact Bool.false_ne_true this
    have hbz' : ∀ bz ∈ busyTimes,
        ¬(s.start < bz.«end» ∧ bz.start < addMinutes s.start d) := by
      intro bz hbzmem hcontra
      have : hasBusyConflict busyTimes s.start (addMinutes s.start d) = true := by
        simp only [hasBusyConflict, List.any_eq_true]
        exact ⟨bz, hbzmem, by simp [hcontra.1, hcontra.2]⟩
      rw [hbz] at this
      exact Bool.false_ne_true this
    rintro (⟨bk, hbkmem, h1, h2⟩ | ⟨bz, hbzmem, h1, h2⟩)
    · exact hbk' bk hbkmem ⟨h1, h2⟩
    · exact hbz' bz hbzmem ⟨h1, h2⟩

/-- Witness for `conflict_half_open_rule`: the spec scenario (window
09:00–12:00, booking 10:00–10:30, duration 30, now 08:00); the returned slots
are 09:00, 09:30, 10:30, 11:00 and 11:30, so the 09:30–10:00 slot ending
exactly at the booking's start is included. -/
theorem conflict_half_open_rule_witness :
    (∀ a b : Int,
      hasConflict [⟨"b", 36000000, 37800000⟩] [] a b = true ↔
        ((∃ bk ∈ [BookingSlot.mk "b" 36000000 37800000], a < bk.endTime ∧ bk.startTime < b) ∨
         (∃ bz ∈ ([] : List BusyTime), a < bz.«end» ∧ bz.start < b))) ∧
    ∀ s ∈ [FreeSlot.mk 32400000 34200000, FreeSlot.mk 34200000 36000000,
        FreeSlot.mk 37800000 39600000, FreeSlot.mk 39600000 41400000,
        FreeSlot.mk 41400000 43200000],
      ¬((∃ bk ∈ [BookingSlot.mk "b" 36000000 37800000],
          s.start < bk.endTime ∧ bk.startTime < s.«end») ∨
        (∃ bz ∈ ([] : List BusyTime), s.start < bz.«end» ∧ bz.start < s.«end»)) :=
  conflict_half_open_rule [⟨"w", 32400000, 43200000⟩] [⟨"b", 36000000, 37800000⟩]
    [] 0 30 28800000 _ (by decide)

/-- C5: no slot returned by `computeAvailableSlots` starts before the injected
`now`, and every label returned by `computeAvailableDates` denotes a day at or
after the day of the injected `now`. -/
theorem past_exclusion (availability : List AvailabilitySlot)
    (bookings : List BookingSlot) (busyTimes : List BusyTime)
    (startDate endDate date d now : Int) :
    (∀ l, computeAvailableSlots availability bookings date d busyTimes now = some l →
      ∀ s ∈ l, now ≤ s.start) ∧
    (∀ out, computeAvailableDates availability bookings startDate endDate d
        busyTimes now = some out →
      ∀ lbl ∈ out, formatYMD (startOfDay now) ≤ lbl) := by
  constructor
  · intro l h s hs
    rcases computeAvailableSlots_mem h hs with ⟨w, _, _, _, hnow, _⟩
    exact hnow
  · intro out h lbl hl
    simp only [computeAvailableDates] at h
    rcases Option.map_eq_some'.mp h with ⟨kept, hkept, rfl⟩
    rcases List.mem_map.mp hl with ⟨cd, hcd, rfl⟩
    have hmem := (filterOptM_mem hkept cd hcd).1
    have hin := List.mem_filter.mp hmem
    have : startOfDay now ≤ cd := by
      have := hin.2
      simp only [Bool.and_eq_true, decide_eq_true_eq, ge_iff_le] at this
      exact this.1
    exact formatYMD_mono this

/-- Witness for `past_exclusion`: an evening window (23:00–24:00) on the epoch
day queried at noon; the one returned slot starts after noon and the one
returned label is not before noon's day. -/
theorem past_exclusion_witness :
    (43200000 : Int) ≤ (FreeSlot.mk 82800000 84600000).start ∧
    formatYMD (startOfDay 43200000) ≤ 0 :=
  ⟨(past_exclusion [⟨"w", 82800000, 86400000⟩] [] [] 0 86400000 0 30 43200000).1
      [⟨82800000, 84600000⟩] (by decide) ⟨82800000, 84600000⟩ (by decide),
    (past_exclusion [⟨"w", 82800000, 86400000⟩] [] [] 0 86400000 0 30 43200000).2
      [0] (by decide) 0 (by decide)⟩

/-- C8: `computeAvailableSlots` processes availability windows independently
and returns the per-window free slots concatenated in input order; in
particular a duplicated window duplicates its free slots (no deduplication or
merging). -/
theorem slots_per_window_concatenation (a1 a2 : List AvailabilitySlot)
    (bookings : List BookingSlot) (busyTimes : List BusyTime) (date d now : Int)
    (w : AvailabilitySlot) :
    (computeAvailableSlots (a1 ++ a2) bookings date d busyTimes now =
      (computeAvailableSlots a1 bookings date d busyTimes now).bind fun l1 =>
        (computeAvailableSlots a2 bookings date d busyTimes now).map fun l2 =>
          l1 ++ l2) ∧
    (computeAvailableSlots [w, w] bookings date d busyTimes now =
      (computeAvailableSlots [w] bookings date d busyTimes now).map fun l =>
        l ++ l) := by
  have key : ∀ b1 b2 : List AvailabilitySlot,
      computeAvailableSlots (b1 ++ b2) bookings date d busyTimes now =
        (computeAvailableSlots b1 bookings date d busyTimes now).bind fun l1 =>
          (computeAvailableSlots b2 bookings date d busyTimes now).map fun l2 =>
            l1 ++ l2 := by
    intro b1 b2
    simp only [computeAvailableSlots, List.filter_append]
    exact flatMapOptM_append _ _ _
  refine ⟨key a1 a2, ?_⟩
  have h2 := key [w] [w]
  simp only [List.singleton_append] at h2
  rw [h2]
  cases computeAvailableSlots [w] bookings date d busyTimes now <;> simp

/-- C9: each aggregator samples the ambient clock exactly once, so its result
depends on the clock only through that single injected instant: two clocks
that agree on the first sample produce identical outputs for both
`computeAvailableSlots` and `computeAvailableDates`. -/
theorem single_clock_sample_determinism (clock1 clock2 : Nat → Int)
    (h : clock1 0 = clock2 0) (availability : List AvailabilitySlot)
    (bookings : List BookingSlot) (startDate endDate date d : Int)
    (busyTimes : List BusyTime) :
    computeAvailableSlotsClocked clock1 availability bookings date d busyTimes =
      computeAvailableSlotsClocked clock2 availability bookings date d busyTimes ∧
    computeAvailableDatesClocked clock1 availability bookings startDate endDate d
        busyTimes =
      computeAvailableDatesClocked clock2 availability bookings startDate endDate d
        busyTimes := by
  unfold computeAvailableSlotsClocked computeAvailableDatesClocked
  rw [h]
  exact ⟨rfl, rfl⟩

/-- Witness for `single_clock_sample_determinism`: two clocks that agree at
sample 0 but nowhere else. -/
theorem single_clock_sample_determinism_witness :
    (fun _ : Nat => (0 : Int)) 0 = (fun n : Nat => (n : Int) * 7) 0 ∧
    (computeAvailableSlotsClocked (fun _ : Nat => (0 : Int)) [⟨"w", 0, 3600000⟩]
        [] 0 30 [] =
      computeAvailableSlotsClocked (fun n : Nat => (n : Int) * 7) [⟨"w", 0, 3600000⟩]
        [] 0 30 [] ∧
    computeAvailableDatesClocked (fun _ : Nat => (0 : Int)) [⟨"w", 0, 3600000⟩]
        [] 0 0 30 [] =
      computeAvailableDatesClocked (fun n : Nat => (n : Int) * 7) [⟨"w", 0, 3600000⟩]
        [] 0 0 30 []) :=
  ⟨by norm_num,
    single_clock_sample_determinism (fun _ => 0) (fun n => (n : Int) * 7)
      (by norm_num) [⟨"w", 0, 3600000⟩] [] 0 0 0 30 []⟩

theorem clip_lo (a b : Int) : (if a < b then b else a) = max a b := by
  rcases lt_or_le a b with hab | hab
  · simp [hab, max_eq_right (le_of_lt hab)]
  · simp [not_lt.mpr hab, max_eq_left hab]

theorem clip_hi (a b : Int) : (if a > b then b else a) = min a b := by
  rcases lt_or_le b a with hab | hab
  · simp [hab, min_eq_right (le_of_lt hab)]
  · simp [not_lt.mpr hab, min_eq_left hab]

/-- C6 (amended): for a positive duration, every slot returned by
`computeAvailableSlots` lies within its originating availability window after
day-clipping — its start is at least `max(window start, day start)`, its end is
at most `min(window end, day end)` — and its end is its start plus the
duration.  (For a negative duration the code can emit slots outside these
bounds, per the counterexample.) -/
theorem slots_window_clipping (availability : List AvailabilitySlot)
    (bookings : List BookingSlot) (busyTimes : List BusyTime) (date d now : Int)
    (hd : 0 < d) (l : List FreeSlot)
    (h : computeAvailableSlots availability bookings date d busyTimes now = some l) :
    ∀ s ∈ l, ∃ w ∈ availability,
      intersectsDay (startOfDay date) (endOfDay date) w = true ∧
      max w.startDateTime (startOfDay date) ≤ s.start ∧
      s.«end» ≤ min w.endDateTime (endOfDay date) ∧
      s.«end» = addMinutes s.start d := by
  intro s hs
  rcases computeAvailableSlots_mem h hs with ⟨w, hwmem, hwint, hmem, _, _, _, hend⟩
  rw [clip_lo, clip_hi] at hmem
  refine ⟨w, hwmem, hwint, ?_, ?_, hend⟩
  · exact slotStartsList_lower hd hmem
  · rw [hend]
    exact slotStartsList_upper hd hmem

/-- C6 (counterexample): with duration −30 and a malformed window (start 02:00,
end 01:00 on the epoch day) the first returned slot ends after the clipped
window end and the second starts before the clipped window start. -/
theorem slots_window_clipping_cex :
    computeAvailableSlots [⟨"w", 7200000, 3600000⟩] [] 0 (-30) [] 0 =
      some [⟨7200000, 5400000⟩, ⟨5400000, 3600000⟩] ∧
    ¬((5400000 : Int) ≤ min 3600000 (endOfDay 0)) ∧
    ¬(max (7200000 : Int) (startOfDay 0) ≤ 5400000) := by decide

/-- Witness for `slots_window_clipping`: the spec scenario window 09:00–12:00
with a 10:00–10:30 booking, duration 30. -/
theorem slots_window_clipping_witness :
    (0 : Int) < 30 ∧
    ∀ s ∈ [FreeSlot.mk 32400000 34200000, FreeSlot.mk 34200000 36000000,
        FreeSlot.mk 37800000 39600000, FreeSlot.mk 39600000 41400000,
        FreeSlot.mk 41400000 43200000],
      ∃ w ∈ [AvailabilitySlot.mk "w" 32400000 43200000],
        intersectsDay (startOfDay 0) (endOfDay 0) w = true ∧
        max w.startDateTime (startOfDay 0) ≤ s.start ∧
        s.«end» ≤ min w.endDateTime (endOfDay 0) ∧
        s.«end» = addMinutes s.start 30 :=
  ⟨by decide,
    slots_window_clipping [⟨"w", 32400000, 43200000⟩] [⟨"b", 36000000, 37800000⟩]
      [] 0 30 28800000 (by decide) _ (by decide)⟩

/-- C10 (amended): for a positive duration every slot returned by
`computeAvailableSlots` ends at or before `endOfDay date` (23:59:59.999, one
millisecond short of midnight), and for a window extending exactly to midnight
the candidate that would end exactly at midnight (23:30–24:00 for duration 30)
is never generated: only 47 slots come back.  (For a negative duration a slot
can end past `endOfDay`, per the counterexample.) -/
theorem day_boundary_last_millisecond (availability : List AvailabilitySlot)
    (bookings : List BookingSlot) (busyTimes : List BusyTime) (date d now : Int)
    (hd : 0 < d) (l : List FreeSlot)
    (h : computeAvailableSlots availability bookings date d busyTimes now = some l) :
    (∀ s ∈ l, s.«end» ≤ endOfDay date) ∧
    (∀ l0, computeAvailableSlots [⟨"w", 0, 86400000⟩] [] 0 30 [] 0 = some l0 →
      FreeSlot.mk 84600000 86400000 ∉ l0 ∧ l0.length = 47) := by
  constructor
  · intro s hs
    rcases computeAvailableSlots_mem h hs with ⟨w, _, _, hmem, _, _, _, hend⟩
    rw [clip_lo, clip_hi] at hmem
    have := slotStartsList_upper hd hmem
    rw [hend]
    exact le_trans this (min_le_right _ _)
  · intro l0 h0
    have heval := computeAvailableSlots_of_ne_zero
      (show (30 : Int) ≠ 0 by decide) [⟨"w", 0, 86400000⟩] [] 0 [] 0
    rw [heval] at h0
    have : l0 = computeAvailableSlotsList [⟨"w", 0, 86400000⟩] [] 0 30 [] 0 :=
      (Option.some.injEq _ _ ▸ h0).symm
    subst this
    decide

/-- C10 (counterexample): with duration −30 and a malformed window reaching
past the day end, `computeAvailableSlots` returns a slot ending at 00:30 of the
next day, after 23:59:59.999 of the queried day. -/
theorem day_boundary_last_millisecond_cex :
    computeAvailableSlots [⟨"w", 90000000, 82800000⟩] [] 0 (-30) [] 0 =
      some [⟨90000000, 88200000⟩, ⟨88200000, 86400000⟩, ⟨86400000, 84600000⟩,
        ⟨84600000, 82800000⟩] ∧
    ¬((88200000 : Int) ≤ endOfDay 0) := by decide

/-- Witness for `day_boundary_last_millisecond`: the spec scenario window
09:00–12:00 on the epoch day (its first slot ends before 23:59:59.999), and
the midnight-window scenario evaluated at its actual 47-slot output. -/
theorem day_boundary_last_millisecond_witness :
    (FreeSlot.mk 32400000 34200000).«end» ≤ endOfDay 0 ∧
    FreeSlot.mk 84600000 86400000 ∉
        computeAvailableSlotsList [⟨"w", 0, 86400000⟩] [] 0 30 [] 0 ∧
    (computeAvailableSlotsList [⟨"w", 0, 86400000⟩] [] 0 30 [] 0).length = 47 :=
  ⟨(day_boundary_last_millisecond [⟨"w", 32400000, 43200000⟩]
      [⟨"b", 36000000, 37800000⟩] [] 0 30 28800000 (by decide)
      [⟨32400000, 34200000⟩, ⟨34200000, 36000000⟩, ⟨37800000, 39600000⟩,
        ⟨39600000, 41400000⟩, ⟨41400000, 43200000⟩] (by decide)).1
      ⟨32400000, 34200000⟩ (by decide),
    (day_boundary_last_millisecond [⟨"w", 32400000, 43200000⟩]
      [⟨"b", 36000000, 37800000⟩] [] 0 30 28800000 (by decide)
      [⟨32400000, 34200000⟩, ⟨34200000, 36000000⟩, ⟨37800000, 39600000⟩,
        ⟨39600000, 41400000⟩, ⟨41400000, 43200000⟩] (by decide)).2
      (computeAvailableSlotsList [⟨"w", 0, 86400000⟩] [] 0 30 [] 0) (by decide)⟩

theorem intersectsDay_eq_true_iff (ds de : Int) (w : AvailabilitySlot) :
    intersectsDay ds de w = true ↔
      (ds ≤ w.startDateTime ∧ w.startDateTime ≤ de) ∨
      (ds ≤ w.endDateTime ∧ w.endDateTime ≤ de) ∨
      (w.startDateTime ≤ ds ∧ de ≤ w.endDateTime) := by
  simp only [intersectsDay, isWithinInterval, Bool.or_eq_true, Bool.and_eq_true,
    decide_eq_true_eq, ge_iff_le]
  tauto

/-- C7: a day counts as having availability iff some window's start falls
within the day, or its end falls within the day, or the window fully spans the
day; concretely, for a window from 08:00 of day 1 to 08:00 of day 3 and a
conflict-free query over days 1–3, `computeAvailableDates` includes the fully
spanned middle day (label 1) even though no window starts or ends on it. -/
theorem day_intersection_rule :
    (∀ (availability : List AvailabilitySlot) (ds de : Int),
      availability.filter (intersectsDay ds de) ≠ [] ↔
        ∃ w ∈ availability,
          (ds ≤ w.startDateTime ∧ w.startDateTime ≤ de) ∨
          (ds ≤ w.endDateTime ∧ w.endDateTime ≤ de) ∨
          (w.startDateTime ≤ ds ∧ de ≤ w.endDateTime)) ∧
    computeAvailableDates [⟨"w", 28800000, 201600000⟩] [] 0 172800000 30 [] 0 =
      some [0, 1, 2] := by
  constructor
  · intro availability ds de
    constructor
    · intro hne
      rcases List.exists_mem_of_ne_nil _ hne with ⟨w, hw⟩
      have hw2 := List.mem_filter.mp hw
      exact ⟨w, hw2.1, (intersectsDay_eq_true_iff ds de w).mp hw2.2⟩
    · rintro ⟨w, hw, hcond⟩ hnil
      have : w ∈ availability.filter (intersectsDay ds de) :=
        List.mem_filter.mpr ⟨hw, (intersectsDay_eq_true_iff ds de w).mpr hcond⟩
      rw [hnil] at this
      simp at this
  · decide

theorem startOfDay_startOfDay (t : Int) : startOfDay (startOfDay t) = startOfDay t :=
  startOfDay_of_dvd (startOfDay_dvd t)

theorem endOfDay_startOfDay (t : Int) : endOfDay (startOfDay t) = endOfDay t := by
  simp [endOfDay, startOfDay_startOfDay]

theorem computeAvailableDatesList_def (availability : List AvailabilitySlot)
    (bookings : List BookingSlot) (sd ed d : Int) (busyTimes : List BusyTime)
    (now : Int) :
    computeAvailableDatesList availability bookings sd ed d busyTimes now =
      ((((List.range (jsCeilDiv (ed - sd) dayMs + 1).toNat).map
          (fun (i : Nat) => addDays (startOfDay sd) (i : Int))).filter
            (fun cd => decide (cd ≥ startOfDay now) && decide (cd ≤ ed))).filter
              (dateKeep availability bookings d busyTimes)).map formatYMD := rfl

theorem computeAvailableSlotsList_def (availability : List AvailabilitySlot)
    (bookings : List BookingSlot) (date d : Int) (busyTimes : List BusyTime)
    (now : Int) :
    computeAvailableSlotsList availability bookings date d busyTimes now =
      (availability.filter (intersectsDay (startOfDay date) (endOfDay date))).flatMap
        (windowFreeSlotsList bookings busyTimes (startOfDay date) (endOfDay date) d
          now) := rfl

theorem dateKeep_eq_any (availability : List AvailabilitySlot)
    (bookings : List BookingSlot) (d : Int) (busyTimes : List BusyTime)
    (cd : Int) :
    dateKeep availability bookings d busyTimes cd =
      (availability.filter (intersectsDay (startOfDay cd) (endOfDay cd))).any
        (windowHasFreeSlotB bookings busyTimes (startOfDay cd) (endOfDay cd) d) := by
  simp only [dateKeep]
  split
  · next hlen =>
    rw [List.length_eq_zero.mp hlen]
    rfl
  · rfl

theorem windowFreeSlotsList_ne_nil_iff {bookings : List BookingSlot}
    {busyTimes : List BusyTime} {dayStart dayEnd d now : Int}
    (hd : 0 < d) (hnow : now ≤ dayStart) (w : AvailabilitySlot) :
    windowFreeSlotsList bookings busyTimes dayStart dayEnd d now w ≠ [] ↔
      windowHasFreeSlotB bookings busyTimes dayStart dayEnd d w = true := by
  rw [windowFreeSlotsList, windowHasFreeSlotB, Ne, List.map_eq_nil_iff,
    List.filter_eq_nil_iff, List.any_eq_true]
  push_neg
  constructor
  · rintro ⟨t, ht, hp⟩
    exact ⟨t, (List.mem_filter.mp ht).1, hp⟩
  · rintro ⟨t, ht, hp⟩
    refine ⟨t, List.mem_filter.mpr ⟨ht, ?_⟩, hp⟩
    have hlow := slotStartsList_lower hd ht
    have hds : dayStart ≤ if w.startDateTime < dayStart then dayStart else w.startDateTime := by
      rw [clip_lo]
      exact le_max_right _ _
    simp only [decide_eq_true_eq, ge_iff_le]
    omega

theorem any_iff_flatMap_ne_nil {bookings : List BookingSlot}
    {busyTimes : List BusyTime} {ds de d now : Int}
    (hd : 0 < d) (hnow : now ≤ ds) (afd : List AvailabilitySlot) :
    afd.any (windowHasFreeSlotB bookings busyTimes ds de d) = true ↔
      afd.flatMap (windowFreeSlotsList bookings busyTimes ds de d now) ≠ [] := by
  rw [List.any_eq_true, Ne, List.flatMap_eq_nil_iff]
  constructor
  · rintro ⟨w, hw, hb⟩ hall
    exact (windowFreeSlotsList_ne_nil_iff hd hnow w).mpr hb (hall w hw)
  · intro hnall
    push_neg at hnall
    rcases hnall with ⟨w, hw, hwne⟩
    exact ⟨w, hw, (windowFreeSlotsList_ne_nil_iff hd hnow w).mp hwne⟩

theorem startOfDay_mem_days {startDate endDate D : Int}
    (h1 : startOfDay startDate ≤ startOfDay D) (h2 : startOfDay D ≤ endDate) :
    ∃ i : Nat, i < (jsCeilDiv (endDate - startDate) dayMs + 1).toNat ∧
      startOfDay D = addDays (startOfDay startDate) (i : Int) := by
  refine ⟨((startOfDay D - startOfDay startDate) / 86400000).toNat, ?_, ?_⟩
  · simp only [startOfDay, jsCeilDiv, dayMs] at *
    omega
  · simp only [startOfDay, addDays, dayMs] at *
    omega

/-- Core of the (amended) aggregator-agreement property, stated on the pure
forms: for a positive duration and a day `D` whose start lies in the queried
range and not before `now`, the label of `D` appears in the date list iff the
slot list for `D` is non-empty. -/
theorem datesList_mem_iff_slotsList_ne_nil (availability : List AvailabilitySlot)
    (bookings : List BookingSlot) (busyTimes : List BusyTime)
    (startDate endDate D d now : Int) (hd : 0 < d)
    (h1 : startOfDay startDate ≤ startOfDay D) (h2 : startOfDay D ≤ endDate)
    (h3 : now ≤ startOfDay D) :
    formatYMD (startOfDay D) ∈
        computeAvailableDatesList availability bookings startDate endDate d
          busyTimes now ↔
      computeAvailableSlotsList availability bookings D d busyTimes now ≠ [] := by
  rw [computeAvailableDatesList_def, computeAvailableSlotsList_def]
  constructor
  · intro hmem
    rcases List.mem_map.mp hmem with ⟨cd, hcd, heq⟩
    have hcd1 := List.mem_filter.mp hcd
    have hcd2 := List.mem_filter.mp hcd1.1
    rcases List.mem_map.mp hcd2.1 with ⟨i, _, hival⟩
    have hdvdcd : dayMs ∣ cd := by
      rw [← hival, addDays]
      exact dvd_add (startOfDay_dvd startDate) (dvd_mul_left dayMs (i : Int))
    have hcdeq : cd = startOfDay D := formatYMD_inj hdvdcd (startOfDay_dvd D) heq
    have hkeep := hcd1.2
    rw [hcdeq] at hkeep
    rw [dateKeep_eq_any, startOfDay_startOfDay, endOfDay_startOfDay] at hkeep
    exact (any_iff_flatMap_ne_nil hd h3 _).mp hkeep
  · intro hne
    have hkeep := (any_iff_flatMap_ne_nil hd h3 _).mpr hne
    rcases startOfDay_mem_days h1 h2 with ⟨i, hi, hival⟩
    refine List.mem_map.mpr ⟨startOfDay D,
      List.mem_filter.mpr ⟨List.mem_filter.mpr ⟨?_, ?_⟩, ?_⟩, rfl⟩
    · exact List.mem_map.mpr ⟨i, List.mem_range.mpr hi, hival.symm⟩
    · have hnow : startOfDay now ≤ startOfDay D := le_trans (startOfDay_le now) h3
      simp [hnow, h2]
    · rw [dateKeep_eq_any, startOfDay_startOfDay, endOfDay_startOfDay]
      exact hkeep

/-- C1 (amended): for a positive duration and a day `D` whose start lies
between the start of the queried range and `endDate` and is not before the
injected `now`, `computeAvailableDates` includes the label of `D` iff
`computeAvailableSlots` for `D` (same inputs, same `now`) is non-empty.  (For
`D` = today the two aggregators can disagree because the day-existence check
does not apply the past-slot filter, per the counterexample.) -/
theorem dates_slots_agreement (availability : List AvailabilitySlot)
    (bookings : List BookingSlot) (busyTimes : List BusyTime)
    (startDate endDate D d now : Int) (hd : 0 < d)
    (h1 : startOfDay startDate ≤ startOfDay D) (h2 : startOfDay D ≤ endDate)
    (h3 : now ≤ startOfDay D) :
    (∃ out, computeAvailableDates availability bookings startDate endDate d
        busyTimes now = some out ∧ formatYMD (startOfDay D) ∈ out) ↔
      (∃ l, computeAvailableSlots availability bookings D d busyTimes now = some l ∧
        l ≠ []) := by
  have hne : d ≠ 0 := ne_of_gt hd
  rw [computeAvailableDates_of_ne_zero hne, computeAvailableSlots_of_ne_zero hne]
  constructor
  · rintro ⟨out, hout, hmem⟩
    have : computeAvailableDatesList availability bookings startDate endDate d
        busyTimes now = out := (Option.some.injEq _ _).mp hout
    rw [← this] at hmem
    exact ⟨_, rfl, (datesList_mem_iff_slotsList_ne_nil availability bookings
      busyTimes startDate endDate D d now hd h1 h2 h3).mp hmem⟩
  · rintro ⟨l, hl, hlne⟩
    have : computeAvailableSlotsList availability bookings D d busyTimes now = l :=
      (Option.some.injEq _ _).mp hl
    rw [← this] at hlne
    exact ⟨_, rfl, (datesList_mem_iff_slotsList_ne_nil availability bookings
      busyTimes startDate endDate D d now hd h1 h2 h3).mpr hlne⟩

/-- C1 (counterexample): with a one-hour window at the very start of the epoch
day, `now` at noon of that day, and the query range covering exactly that day,
`computeAvailableDates` includes the day (its existence check ignores `now`)
while `computeAvailableSlots` returns the empty list — the claimed equivalence
fails for the current day. -/
theorem dates_slots_agreement_cex :
    computeAvailableDates [⟨"w", 0, 3600000⟩] [] 0 0 30 [] 43200000 =
      some [0] ∧
    computeAvailableSlots [⟨"w", 0, 3600000⟩] [] 0 30 [] 43200000 =
      some [] := by decide

/-- Witness for `dates_slots_agreement`: the same one-hour window with `now` at
the start of the day, where both sides of the equivalence are satisfiable. -/
theorem dates_slots_agreement_witness :
    (0 : Int) < 30 ∧ startOfDay 0 ≤ startOfDay 0 ∧ startOfDay 0 ≤ (0 : Int) ∧
      (0 : Int) ≤ startOfDay 0 ∧
    ((∃ out, computeAvailableDates [⟨"w", 0, 3600000⟩] [] 0 0 30 [] 0 = some out ∧
        formatYMD (startOfDay 0) ∈ out) ↔
      (∃ l, computeAvailableSlots [⟨"w", 0, 3600000⟩] [] 0 30 [] 0 = some l ∧
        l ≠ [])) :=
  ⟨by decide, by decide, by decide, by decide,
    dates_slots_agreement [⟨"w", 0, 3600000⟩] [] [] 0 0 0 30 0 (by decide)
      (by decide) (by decide) (by decide)⟩

end Calendaro
